import Mathlib

/-!
Verification development for the alpha_tui accumulator-machine interpreter.

The definitions below are shallow embeddings of the Rust source files
`src/base.rs`, `src/runtime/builder.rs` and `src/app/content.rs`.
Machine integers (`i32`) are modelled as `Int` together with the explicit
range `[-2^31, 2^31 - 1]`; the checked arithmetic helpers below implement
the semantics of `i32::checked_add` / `checked_sub` / `checked_mul` /
`checked_div` for arguments inside that range.
-/

/-- Lower bound of the `i32` range, `-2^31`. -/
def i32Min : Int := -(2 ^ 31)

/-- Upper bound of the `i32` range, `2^31 - 1`. -/
def i32Max : Int := 2 ^ 31 - 1

/-- `x` lies inside the `i32` range. -/
def inRange32 (x : Int) : Prop := i32Min ≤ x ∧ x ≤ i32Max

instance (x : Int) : Decidable (inRange32 x) := by
  unfold inRange32; infer_instance

/-- Semantics of `i32::checked_add` for in-range arguments: the exact sum when
it fits in `i32`, `none` on overflow. -/
def checkedAdd (x y : Int) : Option Int :=
  if inRange32 (x + y) then some (x + y) else none

/-- Semantics of `i32::checked_sub` for in-range arguments. -/
def checkedSub (x y : Int) : Option Int :=
  if inRange32 (x - y) then some (x - y) else none

/-- Semantics of `i32::checked_mul` for in-range arguments. -/
def checkedMul (x y : Int) : Option Int :=
  if inRange32 (x * y) then some (x * y) else none

/-- Semantics of `i32::checked_div` for in-range arguments: `none` when the
divisor is `0` or when the truncating quotient overflows (only `MIN / -1`),
otherwise the quotient truncated toward zero (`Int.tdiv`). -/
def checkedDiv (x y : Int) : Option Int :=
  if y = 0 then none
  else if inRange32 (x.tdiv y) then some (x.tdiv y) else none

/-- Embeds `CalcError` from `src/runtime/error_handling.rs` as used by
`Operation::calc` in `src/base.rs`. -/
inductive CalcError where
  | AttemptToOverflow (verb : String) (operation : String)
  | AttemptToDivideByZero
  deriving DecidableEq, Repr

/-- Embeds `RuntimeErrorType` (only the variant produced by `Operation::calc`). -/
inductive RuntimeErrorType where
  | IllegalCalculation (cause : CalcError)
  deriving DecidableEq, Repr

/-- Embeds `enum Operation` from `src/base.rs`. -/
inductive Operation where
  | Add
  | Sub
  | Mul
  | Div
  deriving DecidableEq, Repr

/-- Embeds `Operation::calc` from `src/base.rs` lines 110-141. Note that the
`Div` arm of the source guards on `x != y` (dividend different from divisor),
not on the divisor being nonzero. -/
def Operation.calcOp (op : Operation) (x y : Int) : Except RuntimeErrorType Int :=
  match op with
  | .Add =>
    match checkedAdd x y with
    | some v => .ok v
    | none => .error (.IllegalCalculation (.AttemptToOverflow "add" "Addition"))
  | .Sub =>
    match checkedSub x y with
    | some v => .ok v
    | none => .error (.IllegalCalculation (.AttemptToOverflow "subtract" "Subtraction"))
  | .Mul =>
    match checkedMul x y with
    | some v => .ok v
    | none => .error (.IllegalCalculation (.AttemptToOverflow "multiply" "Multiplication"))
  | .Div =>
    if x ≠ y then
      match checkedDiv x y with
      | some v => .ok v
      | none => .error (.IllegalCalculation (.AttemptToOverflow "divide" "Division"))
    else
      .error (.IllegalCalculation .AttemptToDivideByZero)

/-- Embeds `enum Comparison` from `src/base.rs`. -/
inductive Comparison where
  | Less
  | LessOrEqual
  | Equal
  | NotEqual
  | MoreOrEqual
  | More
  deriving DecidableEq, Repr

/-- Embeds `TryFrom<&str> for Comparison` from `src/base.rs` lines 82-99. -/
def Comparison.tryFromStr (value : String) : Except Unit Comparison :=
  if value = "<" then .ok .Less
  else if value = "<=" then .ok .LessOrEqual
  else if value = "=<" then .ok .LessOrEqual
  else if value = "=" then .ok .Equal
  else if value = "==" then .ok .Equal
  else if value = "!=" then .ok .NotEqual
  else if value = ">=" then .ok .MoreOrEqual
  else if value = "=>" then .ok .MoreOrEqual
  else if value = ">" then .ok .More
  else .error ()

/-- The nine comparison symbols accepted by `Comparison::try_from`. -/
def comparisonSymbols : List String :=
  ["<", "<=", "=<", "=", "==", "!=", ">=", "=>", ">"]

/-- Embeds `struct Accumulator` from `src/base.rs`. -/
structure Accumulator where
  id : Nat
  data : Option Int
  deriving DecidableEq, Repr

/-- Embeds `Accumulator::new` from `src/base.rs`: the data starts unset. -/
def Accumulator.new (id : Nat) : Accumulator := ⟨id, none⟩

/-- Embeds `struct MemoryCell` from `src/base.rs`. -/
structure MemoryCell where
  label : String
  data : Option Int
  deriving DecidableEq, Repr

/-- Embeds `MemoryCell::new` from `src/base.rs`: the data starts unset. -/
def MemoryCell.new (label : String) : MemoryCell := ⟨label, none⟩

/-- Association-list model of the `HashMap`s used by the builder: lookup finds
the most recently inserted binding for a key, so plain cons is `insert`. -/
def lookupA {α β : Type} [DecidableEq α] : List (α × β) → α → Option β
  | [], _ => none
  | (k, v) :: rest, key => if key = k then some v else lookupA rest key

/-- Embeds `enum TargetType` (`src/instructions`); the `check` implementation
in `src/runtime/builder.rs` lines 366-381 matches exactly these two variants. -/
inductive TargetType where
  | Accumulator (index : Nat)
  | MemoryCell (name : String)
  deriving DecidableEq, Repr

/-- Embeds `enum Value` (`src/instructions`); the `check` implementation in
`src/runtime/builder.rs` lines 383-399 matches exactly these three variants. -/
inductive Value where
  | Accumulator (index : Nat)
  | MemoryCell (name : String)
  | Constant (value : Int)
  deriving DecidableEq, Repr

/-- Embeds `enum Instruction`. The enum declaration lives in the
`src/instructions` module; the variant list is taken from spec section 4.4
(`Assign`, `Calc`, `Call`, `Goto`, `JumpIf`, `Noop`, `Pop`, `Push`, `Return`,
`StackOp`), matching every variant named by the code in
`src/runtime/builder.rs`. -/
inductive Instruction where
  | Assign (target : TargetType) (source : Value)
  | Calc (target : TargetType) (a : Value) (op : Operation) (b : Value)
  | Call (label : String)
  | Goto (label : String)
  | JumpIf (a : Value) (cmp : Comparison) (b : Value) (label : String)
  | Noop
  | Pop
  | Push
  | Return
  | StackOp (op : Operation)
  deriving DecidableEq, Repr

/-- Embeds `ControlFlow` (declared in the `src/runtime` module; fields per
spec section 3: label table, call stack, next and initial instruction index). -/
structure ControlFlow where
  instruction_labels : List (String × Nat)
  next_instruction_index : Nat
  initial_instruction : Nat
  call_stack : List Nat
  deriving DecidableEq, Repr

/-- An empty control flow state, as produced by `ControlFlow::new`/`reset`. -/
def cfEmpty : ControlFlow := ⟨[], 0, 0, []⟩

/-- Embeds `RuntimeArgs` (declared in the `src/runtime` module): the storage
maps mutated by `check_accumulator`/`check_memory_cell` in
`src/runtime/builder.rs`. Only the fields those functions touch are modelled. -/
structure RuntimeArgs where
  accumulators : List (Nat × Accumulator)
  memory_cells : List (String × MemoryCell)
  deriving DecidableEq, Repr

/-- Runtime args with no storage declared. -/
def argsEmpty : RuntimeArgs := ⟨[], []⟩

/-- Modelled from the spec: `RuntimeArgs::exists_accumulator` (declared in the
missing `src/runtime` module, called by `check_accumulator`): whether an
accumulator with this id is present, mirroring the
`accumulators.contains_key` usage visible in the builder's test module. -/
def RuntimeArgs.existsAccumulator (args : RuntimeArgs) (id : Nat) : Bool :=
  (lookupA args.accumulators id).isSome

/-- Embeds `enum RuntimeBuildError` (variants as constructed in
`src/runtime/builder.rs`). -/
inductive RuntimeBuildError where
  | RuntimeArgsMissing
  | InstructionsMissing
  | LabelUndefined (label : String)
  | AccumulatorMissing (id : String)
  | MemoryCellMissing (name : String)
  deriving DecidableEq, Repr

/-- Embeds `check_accumulator` from `src/runtime/builder.rs` lines 331-344.
Rust mutates `runtime_args`; here the updated args are returned. -/
def checkAccumulator (args : RuntimeArgs) (id : Nat) (add_missing : Bool) :
    Except RuntimeBuildError RuntimeArgs :=
  if ¬ args.existsAccumulator id then
    if add_missing then
      .ok { args with accumulators := (id, Accumulator.new id) :: args.accumulators }
    else
      .error (.AccumulatorMissing (toString id))
  else
    .ok args

/-- Embeds `check_memory_cell` from `src/runtime/builder.rs` lines 349-364. -/
def checkMemoryCell (args : RuntimeArgs) (name : String) (add_missing : Bool) :
    Except RuntimeBuildError RuntimeArgs :=
  if ¬ (lookupA args.memory_cells name).isSome then
    if add_missing then
      .ok { args with memory_cells := (name, MemoryCell.new name) :: args.memory_cells }
    else
      .error (.MemoryCellMissing name)
  else
    .ok args

/-- Embeds `TargetType::check` from `src/runtime/builder.rs` lines 366-381. -/
def TargetType.checkT (t : TargetType) (args : RuntimeArgs) (add_missing : Bool) :
    Except RuntimeBuildError RuntimeArgs :=
  match t with
  | .Accumulator index => checkAccumulator args index add_missing
  | .MemoryCell name => checkMemoryCell args name add_missing

/-- Embeds `Value::check` from `src/runtime/builder.rs` lines 383-399. -/
def Value.checkV (v : Value) (args : RuntimeArgs) (add_missing : Bool) :
    Except RuntimeBuildError RuntimeArgs :=
  match v with
  | .Accumulator index => checkAccumulator args index add_missing
  | .MemoryCell name => checkMemoryCell args name add_missing
  | .Constant _ => .ok args

/-- Embeds `RuntimeBuilder::check_missing_vars` from `src/runtime/builder.rs`
lines 284-303: only `Assign` and `Calc` instructions are inspected; the
(possibly extended) runtime args are threaded through. -/
def checkMissingVars (instructions : List Instruction) (args : RuntimeArgs)
    (add_missing : Bool) : Except RuntimeBuildError RuntimeArgs :=
  match instructions with
  | [] => .ok args
  | i :: rest =>
    match i with
    | .Assign target source =>
      match target.checkT args add_missing with
      | .error e => .error e
      | .ok args₁ =>
        match source.checkV args₁ add_missing with
        | .error e => .error e
        | .ok args₂ => checkMissingVars rest args₂ add_missing
    | .Calc target a _ b =>
      match target.checkT args add_missing with
      | .error e => .error e
      | .ok args₁ =>
        match a.checkV args₁ add_missing with
        | .error e => .error e
        | .ok args₂ =>
          match b.checkV args₂ add_missing with
          | .error e => .error e
          | .ok args₃ => checkMissingVars rest args₃ add_missing
    | _ => checkMissingVars rest args add_missing

/-- Embeds `check_label` from `src/runtime/builder.rs` lines 321-326. -/
def checkLabel (labels : List (String × Nat)) (label : String) :
    Except String Unit :=
  if (lookupA labels label).isSome then .ok () else .error label

/-- Embeds `RuntimeBuilder::check_labels` from `src/runtime/builder.rs` lines
264-277: only `Goto` and `JumpIf` targets are inspected (the match has a
wildcard arm for every other variant, including `Call`). -/
def checkLabels (labels : List (String × Nat)) :
    List Instruction → Except String Unit
  | [] => .ok ()
  | i :: rest =>
    match i with
    | .Goto label =>
      match checkLabel labels label with
      | .error l => .error l
      | .ok () => checkLabels labels rest
    | .JumpIf _ _ _ label =>
      match checkLabel labels label with
      | .error l => .error l
      | .ok () => checkLabels labels rest
    | _ => checkLabels labels rest

/-- Embeds `inject_end_labels` from `src/runtime/builder.rs` lines 306-319:
inserts `END`, `ENDE`, `end`, `ende`, each mapped to the instruction count;
a `HashMap` insert overwrites, which the cons-based lookup also does. -/
def injectEndLabels (labels : List (String × Nat)) (last_instruction_index : Nat) :
    List (String × Nat) :=
  ("ende", last_instruction_index) :: ("end", last_instruction_index) ::
    ("ENDE", last_instruction_index) :: ("END", last_instruction_index) :: labels

/-- Embeds `struct RuntimeBuilder` from `src/runtime/builder.rs`. -/
structure RuntimeBuilder where
  runtime_args : Option RuntimeArgs
  instructions : Option (List Instruction)
  control_flow : ControlFlow
  add_missing : Bool
  deriving DecidableEq, Repr

/-- Embeds `struct Runtime` (fields as constructed by `RuntimeBuilder::build`). -/
structure Runtime where
  runtime_args : RuntimeArgs
  instructions : List Instruction
  control_flow : ControlFlow
  deriving DecidableEq, Repr

/-- Embeds the entry-point resolution at the end of `RuntimeBuilder::build`
(`src/runtime/builder.rs` lines 86-94): the source first applies the `main`
index, then the `MAIN` index (both setting `next_instruction_index` and
`initial_instruction`), so `MAIN` wins when both are present — which the
nested match below reproduces. -/
def resolveEntry (labels : List (String × Nat)) (cf : ControlFlow) : ControlFlow :=
  match lookupA labels "MAIN" with
  | some i =>
    { cf with instruction_labels := labels, next_instruction_index := i,
              initial_instruction := i }
  | none =>
    match lookupA labels "main" with
    | some i =>
      { cf with instruction_labels := labels, next_instruction_index := i,
                initial_instruction := i }
    | none => { cf with instruction_labels := labels }

/-- Embeds `RuntimeBuilder::build` from `src/runtime/builder.rs` lines 69-100:
precondition checks, end-label injection, label validation, storage
validation, then `main`/`MAIN` entry-point resolution. -/
def RuntimeBuilder.build (b : RuntimeBuilder) : Except RuntimeBuildError Runtime :=
  match b.runtime_args with
  | none => .error .RuntimeArgsMissing
  | some args =>
    match b.instructions with
    | none => .error .InstructionsMissing
    | some instrs =>
      if instrs.isEmpty then .error .InstructionsMissing
      else
        match checkLabels (injectEndLabels b.control_flow.instruction_labels instrs.length) instrs with
        | .error l => .error (.LabelUndefined l)
        | .ok () =>
          match checkMissingVars instrs args b.add_missing with
          | .error e => .error e
          | .ok args' =>
            .ok { runtime_args := args', instructions := instrs,
                  control_flow :=
                    resolveEntry
                      (injectEndLabels b.control_flow.instruction_labels instrs.length)
                      b.control_flow }

/-- First index at which `pat` occurs as a contiguous sublist of `l`, i.e. the
semantics of Rust's `str::find` for an ASCII pattern. -/
def findSub (pat : List Char) : List Char → Option Nat
  | [] => if pat.isPrefixOf ([] : List Char) then some 0 else none
  | c :: t =>
    if pat.isPrefixOf (c :: t) then some 0
    else (findSub pat t).map (· + 1)

/-- Embeds the per-line comment stripping of
`RuntimeBuilder::build_instructions` (`src/runtime/builder.rs` lines 132-143):
cut at the first `//` when present, otherwise at the first `#`, otherwise keep
the line. -/
def stripLineChars (l : List Char) : List Char :=
  match findSub ['/', '/'] l with
  | some i => l.take i
  | none =>
    match findSub ['#'] l with
    | some i => l.take i
    | none => l

/-- Splits a character list at newline characters (Rust `str::lines`; the only
difference, an extra empty segment for a trailing newline or empty input,
disappears again under whitespace tokenization). -/
def splitNlAux : List Char → List Char → List (List Char)
  | [], cur => [cur.reverse]
  | c :: rest, cur =>
    if c = '\n' then cur.reverse :: splitNlAux rest []
    else splitNlAux rest (c :: cur)

/-- Joins character-list lines with a newline, the `join("\n")` of the source. -/
def joinNl : List (List Char) → List Char
  | [] => []
  | [x] => x
  | x :: xs => x ++ '\n' :: joinNl xs

/-- The whole comment-removal step of `build_instructions`: strip every line,
rejoin with newlines. -/
def stripComments (s : String) : String :=
  String.mk (joinNl ((splitNlAux s.data []).map stripLineChars))

/-- Embeds Rust `str::split_whitespace`: maximal runs of non-whitespace
characters, empty tokens dropped. -/
def splitWsAux : List Char → List Char → List String
  | [], cur => if cur.isEmpty then [] else [String.mk cur.reverse]
  | c :: rest, cur =>
    if c.isWhitespace then
      if cur.isEmpty then splitWsAux rest []
      else String.mk cur.reverse :: splitWsAux rest []
    else splitWsAux rest (c :: cur)

/-- `split_whitespace` on a string. -/
def splitWhitespace (s : String) : List String := splitWsAux s.data []

/-- Rust `token.ends_with(':')`. -/
def endsColon (tok : String) : Bool := tok.data.getLast? = some ':'

/-- Rust `token.replace(':', "")`: every colon removed. -/
def removeColons (tok : String) : String := String.mk (tok.data.filter (· ≠ ':'))

/-- The label defined by a source line, if its first whitespace token (after
comment stripping) ends with a colon. -/
def definedLabel (line : String) : Option String :=
  match splitWhitespace (stripComments line) with
  | [] => none
  | tok :: _ => if endsColon tok then some (removeColons tok) else none

/-- Embeds `enum BuildProgramErrorTypes` (variants as constructed in
`src/runtime/builder.rs`; the `ParseError` payload of source text and span is
elided as the claims do not touch it). -/
inductive BuildProgramErrorTypes where
  | MainLabelDefinedMultipleTimes
  | LabelDefinedMultipleTimes (label : String)
  | ParseError
  deriving DecidableEq, Repr

/-- One iteration of the `build_instructions` loop
(`src/runtime/builder.rs` lines 131-217) for a single source line: strip
comments, tokenize, handle an empty line, a leading label (with the
duplicate-label errors), and hand the remaining tokens to the instruction
parser `p` (which embeds `Instruction::try_from`, a function of the missing
`src/instructions` module, kept abstract as a parameter). Returns the parsed
instruction and the updated label table. -/
def lineStep (p : List String → Except Unit Instruction) (line : String)
    (idx : Nat) (labels : List (String × Nat)) :
    Except BuildProgramErrorTypes (Instruction × List (String × Nat)) :=
  match splitWhitespace (stripComments line) with
  | [] => .ok (.Noop, labels)
  | tok :: remaining =>
    if endsColon tok then
      let label := removeColons tok
      if (lookupA labels label).isSome then
        if label = "main" ∨ label = "MAIN" then .error .MainLabelDefinedMultipleTimes
        else .error (.LabelDefinedMultipleTimes label)
      else
        match remaining with
        | [] => .ok (.Noop, (label, idx) :: labels)
        | _ :: _ =>
          match p remaining with
          | .ok i => .ok (i, (label, idx) :: labels)
          | .error _ => .error .ParseError
    else
      match p (tok :: remaining) with
      | .ok i => .ok (i, labels)
      | .error _ => .error .ParseError

/-- The `build_instructions` loop over all lines, threading the line index and
the label table. -/
def buildInstrAux (p : List String → Except Unit Instruction) :
    List String → Nat → List (String × Nat) →
    Except BuildProgramErrorTypes (List Instruction × List (String × Nat))
  | [], _, labels => .ok ([], labels)
  | line :: rest, idx, labels =>
    match lineStep p line idx labels with
    | .error e => .error e
    | .ok (i, labels') =>
      match buildInstrAux p rest (idx + 1) labels' with
      | .error e => .error e
      | .ok (is, m) => .ok (i :: is, m)

/-- Embeds `RuntimeBuilder::build_instructions` from `src/runtime/builder.rs`
lines 124-227: control flow starts reset (empty label table), the loop runs
over the input lines, and afterwards defining both `main` and `MAIN` is
rejected. Returns the instruction vector and the label table. -/
def buildInstructions (p : List String → Except Unit Instruction)
    (lines : List String) :
    Except BuildProgramErrorTypes (List Instruction × List (String × Nat)) :=
  match buildInstrAux p lines 0 [] with
  | .error e => .error e
  | .ok (is, m) =>
    if (lookupA m "main").isSome ∧ (lookupA m "MAIN").isSome then
      .error .MainLabelDefinedMultipleTimes
    else
      .ok (is, m)

/-- An instruction parser that accepts every token list (used to instantiate
the abstract parser parameter in witnesses). -/
def pAlwaysNoop : List String → Except Unit Instruction := fun _ => .ok .Noop

/-- An instruction parser that rejects every token list (used to instantiate
the abstract parser parameter in witnesses on label-only programs). -/
def pReject : List String → Except Unit Instruction := fun _ => .error ()

/-- A builder holding only the one-line program `goto END`, used as a concrete
build input. -/
def bGotoEnd : RuntimeBuilder := ⟨some argsEmpty, some [.Goto "END"], cfEmpty, false⟩

/-- The runtime produced by building `bGotoEnd`. -/
def rtGotoEnd : Runtime :=
  ⟨argsEmpty, [.Goto "END"], resolveEntry (injectEndLabels [] 1) cfEmpty⟩

/-- A builder holding only a `call` to a label that is defined nowhere. -/
def bCallMissing : RuntimeBuilder :=
  ⟨some argsEmpty, some [.Call "missing"], cfEmpty, false⟩

/-- The runtime produced by building `bCallMissing`. -/
def rtCallMissing : Runtime :=
  ⟨argsEmpty, [.Call "missing"], resolveEntry (injectEndLabels [] 1) cfEmpty⟩

/-- Minimal model of `ratatui::widgets::ListState`: only the selected index is
relevant to the claims. -/
structure ListState where
  selected : Option Nat
  deriving DecidableEq, Repr

/-- Embeds `InstructionListStates` from `src/app/content.rs` (the fields used
by `toggle_breakpoint`): each entry is (index, line content, breakpoint set). -/
structure InstructionListStates where
  instruction_list_state : ListState
  breakpoint_list_state : ListState
  instructions : List (Nat × String × Bool)
  deriving DecidableEq, Repr

/-- Embeds `InstructionListStates::toggle_breakpoint` from
`src/app/content.rs` lines 122-125: negate the breakpoint flag of the entry at
the selected index. The source unwraps the selection and indexes the vector;
outside those preconditions (no selection / out of bounds) it panics, modelled
here as the identity, which the claims never rely on. -/
def InstructionListStates.toggleBreakpoint (s : InstructionListStates) :
    InstructionListStates :=
  match s.instruction_list_state.selected with
  | none => s
  | some i =>
    match s.instructions.get? i with
    | none => s
    | some e => { s with instructions := s.instructions.set i (e.1, e.2.1, !e.2.2) }



/-- A sample instruction-list UI state: two lines, line 0 selected, a
breakpoint already set on line 1. -/
def sampleListStates : InstructionListStates :=
  ⟨⟨some 0⟩, ⟨none⟩, [(0, "a0 := 5", false), (1, "a1 := 2", true)]⟩

/-! ## Helper lemmas -/

theorem resolveEntry_labels (labels : List (String × Nat)) (cf : ControlFlow) :
    (resolveEntry labels cf).instruction_labels = labels := by
  unfold resolveEntry
  cases lookupA labels "MAIN" with
  | some i => rfl
  | none =>
    cases lookupA labels "main" with
    | some i => rfl
    | none => rfl

theorem set_get?_self {α : Type} :
    ∀ (l : List α) (i : Nat) (x : α), l.get? i = some x → l.set i x = l := by
  intro l
  induction l with
  | nil => intro i x h; simp at h
  | cons a t ih =>
    intro i x h
    cases i with
    | zero =>
      simp only [List.get?] at h
      injection h with h
      simp [List.set, h]
    | succ n =>
      simp only [List.get?] at h
      simp [List.set, ih n x h]

/-! ## Claim theorems -/

/-- C1: the claim states that `Operation::Div.calc(x, y)` fails with
`AttemptToDivideByZero` iff the divisor `y` is `0`, and otherwise divides
(with `MIN / -1` overflowing). The code instead guards on `x != y`: dividing
`5` by `0` yields `AttemptToOverflow` (not the divide-by-zero error) and
dividing `5` by `5` yields `AttemptToDivideByZero` (instead of the quotient
`1`). This theorem evaluates the embedded code at those failing inputs. -/
theorem c1_div_failing_inputs :
    Operation.calcOp .Div 5 0 =
      .error (.IllegalCalculation (.AttemptToOverflow "divide" "Division"))
    ∧ Operation.calcOp .Div 5 5 =
      .error (.IllegalCalculation .AttemptToDivideByZero)
    ∧ Operation.calcOp .Div 10 2 = .ok 5 := by
  refine ⟨?_, ?_, ?_⟩ <;> rfl

/-- C8: `Comparison::try_from` succeeds exactly on the nine comparison
symbols, mapping `<=`/`=<` to `LessOrEqual`, `=`/`==` to `Equal`, `>=`/`=>`
to `MoreOrEqual`, and fails on every other string. -/
theorem c8_comparison_try_from :
    Comparison.tryFromStr "<" = .ok .Less
    ∧ Comparison.tryFromStr "<=" = .ok .LessOrEqual
    ∧ Comparison.tryFromStr "=<" = .ok .LessOrEqual
    ∧ Comparison.tryFromStr "=" = .ok .Equal
    ∧ Comparison.tryFromStr "==" = .ok .Equal
    ∧ Comparison.tryFromStr "!=" = .ok .NotEqual
    ∧ Comparison.tryFromStr ">=" = .ok .MoreOrEqual
    ∧ Comparison.tryFromStr "=>" = .ok .MoreOrEqual
    ∧ Comparison.tryFromStr ">" = .ok .More
    ∧ ∀ s : String, s ∉ comparisonSymbols → Comparison.tryFromStr s = .error () := by
  refine ⟨rfl, rfl, rfl, rfl, rfl, rfl, rfl, rfl, rfl, ?_⟩
  intro s hs
  simp only [comparisonSymbols, List.mem_cons, List.not_mem_nil, or_false, not_or] at hs
  obtain ⟨h1, h2, h3, h4, h5, h6, h7, h8, h9⟩ := hs
  simp [Comparison.tryFromStr, h1, h2, h3, h4, h5, h6, h7, h8, h9]

/-- Witness for C8: applies the theorem to the concrete string `"<<"`. -/
theorem c8_comparison_try_from_witness :
    ("<<" : String) ∉ comparisonSymbols ∧ Comparison.tryFromStr "<<" = .error () :=
  ⟨by decide, c8_comparison_try_from.2.2.2.2.2.2.2.2.2 "<<" (by decide)⟩

/-- C6: for 32-bit integers, `Add`/`Sub`/`Mul` succeed with the exact
mathematical result exactly when the checked operation would not overflow,
fail with `AttemptToOverflow` when it would, and never return a wrapped or
truncated value. -/
theorem c6_checked_arithmetic (x y : Int) (_hx : inRange32 x) (_hy : inRange32 y) :
    ((Operation.calcOp .Add x y = .ok (x + y) ↔ inRange32 (x + y))
      ∧ (¬ inRange32 (x + y) →
          Operation.calcOp .Add x y =
            .error (.IllegalCalculation (.AttemptToOverflow "add" "Addition")))
      ∧ ∀ v, Operation.calcOp .Add x y = .ok v → v = x + y)
    ∧ ((Operation.calcOp .Sub x y = .ok (x - y) ↔ inRange32 (x - y))
      ∧ (¬ inRange32 (x - y) →
          Operation.calcOp .Sub x y =
            .error (.IllegalCalculation (.AttemptToOverflow "subtract" "Subtraction")))
      ∧ ∀ v, Operation.calcOp .Sub x y = .ok v → v = x - y)
    ∧ ((Operation.calcOp .Mul x y = .ok (x * y) ↔ inRange32 (x * y))
      ∧ (¬ inRange32 (x * y) →
          Operation.calcOp .Mul x y =
            .error (.IllegalCalculation (.AttemptToOverflow "multiply" "Multiplication")))
      ∧ ∀ v, Operation.calcOp .Mul x y = .ok v → v = x * y) := by
  refine ⟨⟨?_, ?_, ?_⟩, ⟨?_, ?_, ?_⟩, ⟨?_, ?_, ?_⟩⟩
  · constructor
    · intro hok
      by_contra h
      simp [Operation.calcOp, checkedAdd, h] at hok
    · intro h
      simp [Operation.calcOp, checkedAdd, h]
  · intro h; simp [Operation.calcOp, checkedAdd, h]
  · intro v hv
    by_cases h : inRange32 (x + y)
    · simp [Operation.calcOp, checkedAdd, h] at hv; exact hv.symm
    · simp [Operation.calcOp, checkedAdd, h] at hv
  · constructor
    · intro hok
      by_contra h
      simp [Operation.calcOp, checkedSub, h] at hok
    · intro h
      simp [Operation.calcOp, checkedSub, h]
  · intro h; simp [Operation.calcOp, checkedSub, h]
  · intro v hv
    by_cases h : inRange32 (x - y)
    · simp [Operation.calcOp, checkedSub, h] at hv; exact hv.symm
    · simp [Operation.calcOp, checkedSub, h] at hv
  · constructor
    · intro hok
      by_contra h
      simp [Operation.calcOp, checkedMul, h] at hok
    · intro h
      simp [Operation.calcOp, checkedMul, h]
  · intro h; simp [Operation.calcOp, checkedMul, h]
  · intro v hv
    by_cases h : inRange32 (x * y)
    · simp [Operation.calcOp, checkedMul, h] at hv; exact hv.symm
    · simp [Operation.calcOp, checkedMul, h] at hv

/-- Witness for C6: the largest `i32` plus one overflows, minus one and times
one stay exact. -/
theorem c6_checked_arithmetic_witness :
    Operation.calcOp .Add (2 ^ 31 - 1) 1 =
      .error (.IllegalCalculation (.AttemptToOverflow "add" "Addition"))
    ∧ Operation.calcOp .Sub (2 ^ 31 - 1) 1 = .ok (2 ^ 31 - 1 - 1)
    ∧ Operation.calcOp .Mul (2 ^ 31 - 1) 1 = .ok ((2 ^ 31 - 1) * 1) := by
  have h := c6_checked_arithmetic (2 ^ 31 - 1) 1 (by decide) (by decide)
  exact ⟨h.1.2.1 (by decide), h.2.1.1.mpr (by decide), h.2.2.1.mpr (by decide)⟩

/-- C2 counterexample: the claim states that a `Call` to a label absent from
the label table makes the build fail. Here a program whose only instruction
calls the undefined label `missing` builds successfully, and `missing` is not
in the resulting label table. -/
theorem c2_call_counterexample :
    RuntimeBuilder.build bCallMissing = .ok rtCallMissing
    ∧ lookupA rtCallMissing.control_flow.instruction_labels "missing" = none := by
  constructor
  · rfl
  · rw [rtCallMissing, resolveEntry_labels]
    rfl

/-- C2 amended: `check_labels` only validates `Goto` and `JumpIf` targets; a
`Call` instruction passes label validation regardless of its target, so a
program whose only instruction is a `Call` to any label always builds (given
runtime args and a non-empty instruction list); the call target is not
resolved at build time. -/
theorem c2_call_labels_unchecked :
    (∀ (labels : List (String × Nat)) (l : String),
      checkLabels labels [.Call l] = .ok ())
    ∧ (∀ (args : RuntimeArgs) (cf : ControlFlow) (am : Bool) (l : String),
      RuntimeBuilder.build ⟨some args, some [.Call l], cf, am⟩ =
        .ok ⟨args, [.Call l], resolveEntry (injectEndLabels cf.instruction_labels 1) cf⟩) := by
  constructor
  · intro labels l; rfl
  · intro args cf am l; rfl

/-- C3: for every successful build, the label table of the produced runtime
maps each of `END`, `ENDE`, `end`, `ende` to one past the last instruction,
regardless of the builder's own label table; and a program whose only
instruction is `goto END` always builds, the jump target resolving to one
past the last real instruction. -/
theorem c3_end_labels :
    (∀ (b : RuntimeBuilder) (rt : Runtime), b.build = .ok rt →
      lookupA rt.control_flow.instruction_labels "END" = some rt.instructions.length
      ∧ lookupA rt.control_flow.instruction_labels "ENDE" = some rt.instructions.length
      ∧ lookupA rt.control_flow.instruction_labels "end" = some rt.instructions.length
      ∧ lookupA rt.control_flow.instruction_labels "ende" = some rt.instructions.length)
    ∧ (∀ (args : RuntimeArgs) (cf : ControlFlow) (am : Bool),
      ∃ rt, RuntimeBuilder.build ⟨some args, some [.Goto "END"], cf, am⟩ = .ok rt
        ∧ lookupA rt.control_flow.instruction_labels "END" = some 1
        ∧ rt.instructions.length = 1) := by
  constructor
  · intro b rt h
    unfold RuntimeBuilder.build at h
    split at h
    · exact Except.noConfusion h
    · split at h
      · exact Except.noConfusion h
      · split at h
        · exact Except.noConfusion h
        · split at h
          · exact Except.noConfusion h
          · split at h
            · exact Except.noConfusion h
            · injection h with h
              subst h
              rw [resolveEntry_labels]
              exact ⟨rfl, rfl, rfl, rfl⟩
  · intro args cf am
    refine ⟨⟨args, [.Goto "END"], resolveEntry (injectEndLabels cf.instruction_labels 1) cf⟩,
      rfl, ?_, rfl⟩
    rw [resolveEntry_labels]
    rfl

/-- Witness for C3: applies the theorem to the concrete successful build of
the one-line program `goto END`. -/
theorem c3_end_labels_witness :
    lookupA rtGotoEnd.control_flow.instruction_labels "END" = some rtGotoEnd.instructions.length
    ∧ lookupA rtGotoEnd.control_flow.instruction_labels "ENDE" = some rtGotoEnd.instructions.length
    ∧ lookupA rtGotoEnd.control_flow.instruction_labels "end" = some rtGotoEnd.instructions.length
    ∧ lookupA rtGotoEnd.control_flow.instruction_labels "ende" = some rtGotoEnd.instructions.length :=
  c3_end_labels.1 bGotoEnd rtGotoEnd rfl

/-- C10: when the selected index is within bounds, toggling the breakpoint
twice restores all breakpoint flags, and a single toggle flips exactly the
selected line's flag and leaves every other line unchanged. -/
theorem c10_toggle_breakpoint (s : InstructionListStates) (i : Nat)
    (hsel : s.instruction_list_state.selected = some i)
    (hlt : i < s.instructions.length) :
    (s.toggleBreakpoint.toggleBreakpoint).instructions = s.instructions
    ∧ (∀ e, s.instructions.get? i = some e →
        s.toggleBreakpoint.instructions.get? i = some (e.1, e.2.1, !e.2.2))
    ∧ (∀ j, j ≠ i → s.toggleBreakpoint.instructions.get? j = s.instructions.get? j) := by
  obtain ⟨e, he⟩ : ∃ e, s.instructions.get? i = some e := by
    rw [List.get?_eq_getElem?]
    exact ⟨s.instructions[i], by simp [hlt]⟩
  have hset : (s.instructions.set i (e.1, e.2.1, !e.2.2)).get? i =
      some (e.1, e.2.1, !e.2.2) := by
    rw [List.get?_eq_getElem?]
    exact List.getElem?_set_self hlt
  have h1 : s.toggleBreakpoint =
      { s with instructions := s.instructions.set i (e.1, e.2.1, !e.2.2) } := by
    simp only [InstructionListStates.toggleBreakpoint, hsel, he]
  refine ⟨?_, ?_, ?_⟩
  · rw [h1]
    simp only [InstructionListStates.toggleBreakpoint, hsel, hset]
    simp only [List.set_set, Bool.not_not]
    exact set_get?_self _ _ _ he
  · intro e' hee
    rw [hee] at he
    injection he with he
    rw [h1, he]
    exact hset
  · intro j hj
    rw [h1]
    simp only [List.get?_eq_getElem?]
    exact List.getElem?_set_ne (fun hh => hj hh.symm)

/-- Witness for C10: the sample state with line 0 selected. -/
theorem c10_toggle_breakpoint_witness :
    (sampleListStates.toggleBreakpoint.toggleBreakpoint).instructions =
      sampleListStates.instructions
    ∧ sampleListStates.toggleBreakpoint.instructions.get? 0 = some (0, "a0 := 5", true)
    ∧ sampleListStates.toggleBreakpoint.instructions.get? 1 =
        sampleListStates.instructions.get? 1 := by
  have h := c10_toggle_breakpoint sampleListStates 0 rfl (by decide)
  exact ⟨h.1, h.2.1 (0, "a0 := 5", false) rfl, h.2.2 1 (by decide)⟩

/-- C5: an `Assign`/`Calc` instruction referencing an accumulator (resp.
memory cell) absent from the bound runtime args makes the build fail with
`AccumulatorMissing` (resp. `MemoryCellMissing`) naming the missing storage
when `add_missing` is disabled; with `add_missing` enabled, the storage is
created with an unset value and the build succeeds. -/
theorem c5_missing_storage (args : RuntimeArgs) (id : Nat) (name : String) :
    (args.existsAccumulator id = false →
      checkAccumulator args id false = .error (.AccumulatorMissing (toString id))
      ∧ checkAccumulator args id true =
          .ok { args with accumulators := (id, Accumulator.new id) :: args.accumulators }
      ∧ lookupA ((id, Accumulator.new id) :: args.accumulators) id =
          some { id := id, data := none })
    ∧ ((lookupA args.memory_cells name).isSome = false →
      checkMemoryCell args name false = .error (.MemoryCellMissing name)
      ∧ checkMemoryCell args name true =
          .ok { args with memory_cells := (name, MemoryCell.new name) :: args.memory_cells }
      ∧ lookupA ((name, MemoryCell.new name) :: args.memory_cells) name =
          some { label := name, data := none })
    ∧ (args.existsAccumulator id = false →
      RuntimeBuilder.build
          ⟨some args, some [.Assign (.Accumulator id) (.Constant 0)], cfEmpty, false⟩ =
        .error (.AccumulatorMissing (toString id))
      ∧ ∃ rt, RuntimeBuilder.build
            ⟨some args, some [.Assign (.Accumulator id) (.Constant 0)], cfEmpty, true⟩ =
          .ok rt
        ∧ lookupA rt.runtime_args.accumulators id = some (Accumulator.new id)) := by
  refine ⟨?_, ?_, ?_⟩
  · intro h
    refine ⟨?_, ?_, ?_⟩
    · simp [checkAccumulator, h]
    · simp [checkAccumulator, h]
    · simp [lookupA, Accumulator.new]
  · intro h
    refine ⟨?_, ?_, ?_⟩
    · simp [checkMemoryCell, h]
    · simp [checkMemoryCell, h]
    · simp [lookupA, MemoryCell.new]
  · intro h
    have hcf : checkMissingVars [.Assign (.Accumulator id) (.Constant 0)] args false =
        .error (.AccumulatorMissing (toString id)) := by
      simp [checkMissingVars, TargetType.checkT, checkAccumulator, h]
    have hct : checkMissingVars [.Assign (.Accumulator id) (.Constant 0)] args true =
        .ok { args with accumulators := (id, Accumulator.new id) :: args.accumulators } := by
      simp [checkMissingVars, TargetType.checkT, Value.checkV, checkAccumulator, h]
    constructor
    · have hb : RuntimeBuilder.build
          ⟨some args, some [.Assign (.Accumulator id) (.Constant 0)], cfEmpty, false⟩ =
          (match checkMissingVars [.Assign (.Accumulator id) (.Constant 0)] args false with
           | .error e => .error e
           | .ok args' => .ok ⟨args', [.Assign (.Accumulator id) (.Constant 0)],
               resolveEntry (injectEndLabels [] 1) cfEmpty⟩) := rfl
      rw [hb, hcf]
    · refine ⟨⟨{ args with accumulators := (id, Accumulator.new id) :: args.accumulators },
        [.Assign (.Accumulator id) (.Constant 0)],
        resolveEntry (injectEndLabels [] 1) cfEmpty⟩, ?_, ?_⟩
      · have hb : RuntimeBuilder.build
            ⟨some args, some [.Assign (.Accumulator id) (.Constant 0)], cfEmpty, true⟩ =
            (match checkMissingVars [.Assign (.Accumulator id) (.Constant 0)] args true with
             | .error e => .error e
             | .ok args' => .ok ⟨args', [.Assign (.Accumulator id) (.Constant 0)],
                 resolveEntry (injectEndLabels [] 1) cfEmpty⟩) := rfl
        rw [hb, hct]
      · simp [lookupA]

/-- Witness for C5: accumulator 7 and memory cell `h1` are absent from the
empty runtime args. -/
theorem c5_missing_storage_witness :
    argsEmpty.existsAccumulator 7 = false
    ∧ checkAccumulator argsEmpty 7 false = .error (.AccumulatorMissing (toString 7))
    ∧ checkMemoryCell argsEmpty "h1" false = .error (.MemoryCellMissing "h1")
    ∧ RuntimeBuilder.build
        ⟨some argsEmpty, some [.Assign (.Accumulator 7) (.Constant 0)], cfEmpty, false⟩ =
      .error (.AccumulatorMissing (toString 7)) := by
  have h := c5_missing_storage argsEmpty 7 "h1"
  exact ⟨rfl, (h.1 rfl).1, (h.2.1 rfl).1, (h.2.2 rfl).1⟩

theorem findSub_eq_some_of (pat : List Char) :
    ∀ (l : List Char) (i : Nat), pat.isPrefixOf (l.drop i) = true →
    (∀ j < i, pat.isPrefixOf (l.drop j) = false) → findSub pat l = some i := by
  intro l
  induction l with
  | nil =>
    intro i h1 h2
    rcases Nat.eq_zero_or_pos i with hz | hpos
    · subst hz
      simp only [List.drop_nil] at h1
      simp [findSub, h1]
    · have := h2 0 hpos
      simp only [List.drop_nil] at this h1
      rw [h1] at this
      exact absurd this (by simp)
  | cons c t ih =>
    intro i h1 h2
    cases i with
    | zero =>
      simp only [List.drop] at h1
      simp [findSub, h1]
    | succ n =>
      have h0 : pat.isPrefixOf (c :: t) = false := by
        have := h2 0 (Nat.succ_pos n)
        simpa using this
      have hrec : findSub pat t = some n := by
        refine ih n ?_ ?_
        · simpa using h1
        · intro j hj
          have := h2 (j + 1) (Nat.succ_lt_succ hj)
          simpa using this
      simp [findSub, h0, hrec]

theorem findSub_eq_none_of (pat : List Char) :
    ∀ l : List Char, (∀ j, pat.isPrefixOf (l.drop j) = false) →
    findSub pat l = none := by
  intro l
  induction l with
  | nil =>
    intro h
    have := h 0
    simp only [List.drop_nil] at this
    simp [findSub, this]
  | cons c t ih =>
    intro h
    have h0 : pat.isPrefixOf (c :: t) = false := by simpa using h 0
    have hrec : findSub pat t = none := by
      refine ih ?_
      intro j
      simpa using h (j + 1)
    simp [findSub, h0, hrec]

theorem isPrefixOf_nil_of_ne (pat : List Char) (h : pat ≠ []) :
    pat.isPrefixOf ([] : List Char) = false := by
  cases pat with
  | nil => exact absurd rfl h
  | cons c t => rfl

theorem no_occurrence_of_bounded (pat l : List Char) (hne : pat ≠ [])
    (h : ∀ j ≤ l.length, pat.isPrefixOf (l.drop j) = false) :
    ∀ j, pat.isPrefixOf (l.drop j) = false := by
  intro j
  rcases Nat.le_total j l.length with hle | hge
  · exact h j hle
  · rw [List.drop_eq_nil_of_le hge]
    exact isPrefixOf_nil_of_ne pat hne

/-- C9: per-line comment stripping cuts at the first occurrence of `//`
whenever the line contains `//`, even when a `#` occurs earlier; `#` starts a
comment only on lines containing no `//` at all; a line with neither marker
is kept whole; and on `"a # b // c"` everything up to the `//` (including the
`#` and the text after it) is kept and handed on. -/
theorem c9_comment_stripping :
    (∀ (l : List Char) (i : Nat),
      ((['/', '/'] : List Char)).isPrefixOf (l.drop i) = true →
      (∀ j < i, (['/', '/'] : List Char).isPrefixOf (l.drop j) = false) →
      stripLineChars l = l.take i)
    ∧ (∀ (l : List Char) (i : Nat),
      (∀ j, (['/', '/'] : List Char).isPrefixOf (l.drop j) = false) →
      (['#'] : List Char).isPrefixOf (l.drop i) = true →
      (∀ j < i, (['#'] : List Char).isPrefixOf (l.drop j) = false) →
      stripLineChars l = l.take i)
    ∧ (∀ l : List Char,
      (∀ j, (['/', '/'] : List Char).isPrefixOf (l.drop j) = false) →
      (∀ j, (['#'] : List Char).isPrefixOf (l.drop j) = false) →
      stripLineChars l = l)
    ∧ stripLineChars ("a # b // c".data) = ("a # b ".data) := by
  refine ⟨?_, ?_, ?_, ?_⟩
  · intro l i h1 h2
    unfold stripLineChars
    rw [findSub_eq_some_of _ l i h1 h2]
  · intro l i hno h1 h2
    unfold stripLineChars
    rw [findSub_eq_none_of _ l hno, findSub_eq_some_of _ l i h1 h2]
  · intro l hno1 hno2
    unfold stripLineChars
    rw [findSub_eq_none_of _ l hno1, findSub_eq_none_of _ l hno2]
  · rfl

/-- Witness for C9: concrete lines exercising all three stripping cases. -/
theorem c9_comment_stripping_witness :
    stripLineChars ("x//y".data) = ("x//y".data).take 1
    ∧ stripLineChars ("a#b".data) = ("a#b".data).take 1
    ∧ stripLineChars ("abc".data) = "abc".data := by
  refine ⟨c9_comment_stripping.1 _ 1 (by decide) (by decide), ?_, ?_⟩
  · exact c9_comment_stripping.2.1 _ 1
      (no_occurrence_of_bounded _ _ (by decide) (by decide)) (by decide) (by decide)
  · exact c9_comment_stripping.2.2.1 _
      (no_occurrence_of_bounded _ _ (by decide) (by decide))
      (no_occurrence_of_bounded _ _ (by decide) (by decide))

theorem lineStep_ok_labels (p : List String → Except Unit Instruction)
    (line : String) (idx : Nat) (labels : List (String × Nat))
    (ins : Instruction) (labels' : List (String × Nat))
    (h : lineStep p line idx labels = .ok (ins, labels')) :
    (definedLabel line = none ∧ labels' = labels)
    ∨ (∃ l, definedLabel line = some l ∧ lookupA labels l = none
        ∧ labels' = (l, idx) :: labels) := by
  unfold lineStep at h
  cases hs : splitWhitespace (stripComments line) with
  | nil =>
    have hd : definedLabel line = none := by unfold definedLabel; rw [hs]
    simp only [hs] at h
    obtain ⟨-, h2⟩ := Prod.mk.injEq .. ▸ Except.ok.inj h
    exact Or.inl ⟨hd, h2.symm⟩
  | cons tok rem =>
    simp only [hs] at h
    cases hec : endsColon tok with
    | false =>
      have hd : definedLabel line = none := by
        unfold definedLabel; rw [hs]; simp [hec]
      simp only [hec, Bool.false_eq_true, if_false] at h
      cases hp : p (tok :: rem) with
      | ok i =>
        simp only [hp] at h
        obtain ⟨-, h2⟩ := Prod.mk.injEq .. ▸ Except.ok.inj h
        exact Or.inl ⟨hd, h2.symm⟩
      | error e => simp [hp] at h
    | true =>
      have hd : definedLabel line = some (removeColons tok) := by
        unfold definedLabel; rw [hs]; simp [hec]
      simp only [hec, if_true] at h
      cases hl : (lookupA labels (removeColons tok)).isSome with
      | true =>
        rw [hl] at h
        simp only [if_true] at h
        by_cases hm : removeColons tok = "main" ∨ removeColons tok = "MAIN" <;>
          simp [hm] at h
      | false =>
        rw [hl] at h
        simp only [Bool.false_eq_true, if_false] at h
        have hln : lookupA labels (removeColons tok) = none :=
          Option.not_isSome_iff_eq_none.mp (by simp [hl])
        cases rem with
        | nil =>
          simp only at h
          obtain ⟨-, h2⟩ := Prod.mk.injEq .. ▸ Except.ok.inj h
          exact Or.inr ⟨removeColons tok, hd, hln, h2.symm⟩
        | cons r rs =>
          simp only at h
          cases hp : p (r :: rs) with
          | ok i =>
            simp only [hp] at h
            obtain ⟨-, h2⟩ := Prod.mk.injEq .. ▸ Except.ok.inj h
            exact Or.inr ⟨removeColons tok, hd, hln, h2.symm⟩
          | error e => simp [hp] at h

theorem lineStep_dup (p : List String → Except Unit Instruction)
    (line : String) (idx : Nat) (labels : List (String × Nat)) (l : String)
    (hd : definedLabel line = some l)
    (hl : (lookupA labels l).isSome = true) :
    lineStep p line idx labels =
      .error (if l = "main" ∨ l = "MAIN" then .MainLabelDefinedMultipleTimes
        else .LabelDefinedMultipleTimes l) := by
  unfold definedLabel at hd
  unfold lineStep
  cases hs : splitWhitespace (stripComments line) with
  | nil =>
    simp only [hs] at hd
    exact Option.noConfusion hd
  | cons tok rem =>
    simp only [hs] at hd ⊢
    cases hec : endsColon tok with
    | false => simp [hec] at hd
    | true =>
      simp only [hec, if_true] at hd ⊢
      have hlab : removeColons tok = l := Option.some.inj hd
      rw [hlab, hl]
      simp only [if_true]
      by_cases hm : l = "main" ∨ l = "MAIN" <;> simp [hm]

theorem aux_ok_length (p : List String → Except Unit Instruction) :
    ∀ (lines : List String) (idx : Nat) (labels : List (String × Nat))
    (is : List Instruction) (m : List (String × Nat)),
    buildInstrAux p lines idx labels = .ok (is, m) → is.length = lines.length := by
  intro lines
  induction lines with
  | nil =>
    intro idx labels is m h
    unfold buildInstrAux at h
    obtain ⟨h1, -⟩ := Prod.mk.injEq .. ▸ Except.ok.inj h
    rw [← h1]
    rfl
  | cons line rest ih =>
    intro idx labels is m h
    unfold buildInstrAux at h
    cases hls : lineStep p line idx labels with
    | error e => simp [hls] at h
    | ok pr =>
      obtain ⟨i, labels'⟩ := pr
      simp only [hls] at h
      cases hrec : buildInstrAux p rest (idx + 1) labels' with
      | error e => simp [hrec] at h
      | ok pr2 =>
        obtain ⟨is', m'⟩ := pr2
        simp only [hrec] at h
        obtain ⟨h1, -⟩ := Prod.mk.injEq .. ▸ Except.ok.inj h
        rw [← h1]
        simp [ih (idx + 1) labels' is' m' hrec]

theorem aux_lookup_mono (p : List String → Except Unit Instruction) :
    ∀ (lines : List String) (idx : Nat) (labels : List (String × Nat))
    (is : List Instruction) (m : List (String × Nat)) (l : String) (v : Nat),
    buildInstrAux p lines idx labels = .ok (is, m) →
    lookupA labels l = some v → lookupA m l = some v := by
  intro lines
  induction lines with
  | nil =>
    intro idx labels is m l v h hv
    unfold buildInstrAux at h
    obtain ⟨-, h2⟩ := Prod.mk.injEq .. ▸ Except.ok.inj h
    rw [← h2]
    exact hv
  | cons line rest ih =>
    intro idx labels is m l v h hv
    unfold buildInstrAux at h
    cases hls : lineStep p line idx labels with
    | error e => simp [hls] at h
    | ok pr =>
      obtain ⟨i, labels'⟩ := pr
      simp only [hls] at h
      cases hrec : buildInstrAux p rest (idx + 1) labels' with
      | error e => simp [hrec] at h
      | ok pr2 =>
        obtain ⟨is', m'⟩ := pr2
        simp only [hrec] at h
        obtain ⟨-, h2⟩ := Prod.mk.injEq .. ▸ Except.ok.inj h
        have hv' : lookupA labels' l = some v := by
          rcases lineStep_ok_labels p line idx labels i labels' hls with ⟨-, rfl⟩ |
            ⟨l₀, -, hnone, rfl⟩
          · exact hv
          · have hne : l ≠ l₀ := by
              intro he
              rw [he] at hv
              rw [hv] at hnone
              exact Option.noConfusion hnone
            simpa [lookupA, hne] using hv
        have := ih (idx + 1) labels' is' m' l v hrec hv'
        rw [← h2]
        exact this

theorem aux_defined_not_in (p : List String → Except Unit Instruction) :
    ∀ (lines : List String) (idx : Nat) (labels : List (String × Nat))
    (res : List Instruction × List (String × Nat)) (k : Nat) (l : String),
    buildInstrAux p lines idx labels = .ok res → k < lines.length →
    definedLabel (lines.getD k "") = some l → lookupA labels l = none := by
  intro lines
  induction lines with
  | nil =>
    intro idx labels res k l h hk hd
    exact absurd hk (by simp)
  | cons line rest ih =>
    intro idx labels res k l h hk hd
    unfold buildInstrAux at h
    cases hls : lineStep p line idx labels with
    | error e => simp [hls] at h
    | ok pr =>
      obtain ⟨i, labels'⟩ := pr
      simp only [hls] at h
      cases hrec : buildInstrAux p rest (idx + 1) labels' with
      | error e => simp [hrec] at h
      | ok pr2 =>
        cases k with
        | zero =>
          have hd0 : definedLabel line = some l := by simpa using hd
          rcases lineStep_ok_labels p line idx labels i labels' hls with ⟨hnone, -⟩ |
            ⟨l₀, hd₀, hnone, -⟩
          · rw [hd0] at hnone
            exact Option.noConfusion hnone
          · have hl₀ : l₀ = l := by
              rw [hd0] at hd₀
              exact (Option.some.inj hd₀).symm
            rw [← hl₀]
            exact hnone
        | succ k' =>
          have hk' : k' < rest.length := by simpa using hk
          have hd' : definedLabel (rest.getD k' "") = some l := by simpa using hd
          have h₂ : lookupA labels' l = none := ih (idx + 1) labels' pr2 k' l hrec hk' hd'
          rcases lineStep_ok_labels p line idx labels i labels' hls with ⟨-, rfl⟩ |
            ⟨l₀, -, -, rfl⟩
          · exact h₂
          · by_cases he : l = l₀
            · simp [lookupA, he] at h₂
            · simpa [lookupA, he] using h₂

theorem aux_lookup_defined (p : List String → Except Unit Instruction) :
    ∀ (lines : List String) (idx : Nat) (labels : List (String × Nat))
    (is : List Instruction) (m : List (String × Nat)) (k : Nat) (l : String),
    buildInstrAux p lines idx labels = .ok (is, m) → k < lines.length →
    definedLabel (lines.getD k "") = some l → lookupA m l = some (idx + k) := by
  intro lines
  induction lines with
  | nil =>
    intro idx labels is m k l h hk hd
    exact absurd hk (by simp)
  | cons line rest ih =>
    intro idx labels is m k l h hk hd
    unfold buildInstrAux at h
    cases hls : lineStep p line idx labels with
    | error e => simp [hls] at h
    | ok pr =>
      obtain ⟨i, labels'⟩ := pr
      simp only [hls] at h
      cases hrec : buildInstrAux p rest (idx + 1) labels' with
      | error e => simp [hrec] at h
      | ok pr2 =>
        obtain ⟨is', m'⟩ := pr2
        simp only [hrec] at h
        obtain ⟨-, h2⟩ := Prod.mk.injEq .. ▸ Except.ok.inj h
        cases k with
        | zero =>
          have hd0 : definedLabel line = some l := by simpa using hd
          rcases lineStep_ok_labels p line idx labels i labels' hls with ⟨hnone, -⟩ |
            ⟨l₀, hd₀, -, rfl⟩
          · rw [hd0] at hnone
            exact Option.noConfusion hnone
          · have hl₀ : l₀ = l := by
              rw [hd0] at hd₀
              exact (Option.some.inj hd₀).symm
            subst hl₀
            have hv : lookupA ((l₀, idx) :: labels) l₀ = some idx := by simp [lookupA]
            have := aux_lookup_mono p rest (idx + 1) ((l₀, idx) :: labels) is' m' l₀ idx
              hrec hv
            rw [h2] at this
            simpa using this
        | succ k' =>
          have hk' : k' < rest.length := by simpa using hk
          have hd' : definedLabel (rest.getD k' "") = some l := by simpa using hd
          have := ih (idx + 1) labels' is' m' k' l hrec hk' hd'
          rw [← h2]
          have heq : idx + 1 + k' = idx + (k' + 1) := by omega
          rw [heq] at this
          exact this

theorem aux_mem (p : List String → Except Unit Instruction) :
    ∀ (lines : List String) (idx : Nat) (labels : List (String × Nat))
    (is : List Instruction) (m : List (String × Nat)),
    buildInstrAux p lines idx labels = .ok (is, m) →
    ∀ (l : String) (i : Nat), (l, i) ∈ m →
      (l, i) ∈ labels
      ∨ (idx ≤ i ∧ i - idx < lines.length
          ∧ definedLabel (lines.getD (i - idx) "") = some l) := by
  intro lines
  induction lines with
  | nil =>
    intro idx labels is m h l i hm
    unfold buildInstrAux at h
    obtain ⟨-, h2⟩ := Prod.mk.injEq .. ▸ Except.ok.inj h
    rw [← h2] at hm
    exact Or.inl hm
  | cons line rest ih =>
    intro idx labels is m h l i hm
    unfold buildInstrAux at h
    cases hls : lineStep p line idx labels with
    | error e => simp [hls] at h
    | ok pr =>
      obtain ⟨ins, labels'⟩ := pr
      simp only [hls] at h
      cases hrec : buildInstrAux p rest (idx + 1) labels' with
      | error e => simp [hrec] at h
      | ok pr2 =>
        obtain ⟨is', m'⟩ := pr2
        simp only [hrec] at h
        obtain ⟨-, h2⟩ := Prod.mk.injEq .. ▸ Except.ok.inj h
        rw [← h2] at hm
        rcases ih (idx + 1) labels' is' m' hrec l i hm with hin | ⟨ha, hb, hc⟩
        · rcases lineStep_ok_labels p line idx labels ins labels' hls with ⟨-, rfl⟩ |
            ⟨l₀, hd₀, -, rfl⟩
          · exact Or.inl hin
          · rcases List.mem_cons.mp hin with heq | htail
            · have he1 : l = l₀ := congrArg Prod.fst heq
              have he2 : i = idx := congrArg Prod.snd heq
              refine Or.inr ⟨by omega, by simp [he2], ?_⟩
              rw [he2, Nat.sub_self, he1]
              simpa using hd₀
            · exact Or.inl htail
        · refine Or.inr ⟨by omega, by simp; omega, ?_⟩
          have heq : i - idx = (i - (idx + 1)) + 1 := by omega
          rw [heq]
          simpa using hc

theorem aux_append (p : List String → Except Unit Instruction) :
    ∀ (xs ys : List String) (idx : Nat) (labels : List (String × Nat)),
    buildInstrAux p (xs ++ ys) idx labels =
      (match buildInstrAux p xs idx labels with
       | .error e => .error e
       | .ok (is, m) =>
         match buildInstrAux p ys (idx + xs.length) m with
         | .error e => .error e
         | .ok (is', m') => .ok (is ++ is', m')) := by
  intro xs
  induction xs with
  | nil =>
    intro ys idx labels
    simp only [List.nil_append, List.length_nil, Nat.add_zero]
    cases haux : buildInstrAux p ys idx labels with
    | error e => simp [buildInstrAux, haux]
    | ok pr =>
      obtain ⟨a, b⟩ := pr
      simp [buildInstrAux, haux]
  | cons x xs ih =>
    intro ys idx labels
    simp only [List.cons_append]
    simp only [buildInstrAux]
    cases hls : lineStep p x idx labels with
    | error e => simp [hls]
    | ok pr =>
      obtain ⟨i, labels'⟩ := pr
      simp only [hls]
      rw [ih ys (idx + 1) labels']
      have hlen : idx + (x :: xs).length = idx + 1 + xs.length := by
        simp
        omega
      rw [hlen]
      cases hxs : buildInstrAux p xs (idx + 1) labels' with
      | error e => simp [hxs]
      | ok pr2 =>
        obtain ⟨is, m⟩ := pr2
        simp only [hxs]
        cases hys : buildInstrAux p ys (idx + 1 + xs.length) m with
        | error e => simp [hys]
        | ok pr3 =>
          obtain ⟨is', m'⟩ := pr3
          simp [hys]

/-- C7: on success, `build_instructions` produces exactly one instruction per
input line (blank, comment-only and label-only lines contributing a `Noop`),
every entry of the label table points at the line that defines it, and every
user-defined label on line `k` maps to instruction index `k`. -/
theorem c7_one_instruction_per_line (p : List String → Except Unit Instruction)
    (lines : List String) (is : List Instruction) (m : List (String × Nat))
    (h : buildInstructions p lines = .ok (is, m)) :
    is.length = lines.length
    ∧ (∀ l i, (l, i) ∈ m → i < lines.length ∧ definedLabel (lines.getD i "") = some l)
    ∧ (∀ k l, k < lines.length → definedLabel (lines.getD k "") = some l →
        lookupA m l = some k) := by
  have haux : buildInstrAux p lines 0 [] = .ok (is, m) := by
    unfold buildInstructions at h
    cases ha : buildInstrAux p lines 0 [] with
    | error e => rw [ha] at h; exact Except.noConfusion h
    | ok pr =>
      obtain ⟨is₀, m₀⟩ := pr
      rw [ha] at h
      simp only at h
      by_cases hmm : (lookupA m₀ "main").isSome ∧ (lookupA m₀ "MAIN").isSome
      · simp [hmm] at h
      · simp only [if_neg hmm] at h
        obtain ⟨h1, h2⟩ := Prod.mk.injEq .. ▸ Except.ok.inj h
        rw [← h1, ← h2]
  refine ⟨aux_ok_length p lines 0 [] is m haux, ?_, ?_⟩
  · intro l i hm
    rcases aux_mem p lines 0 [] is m haux l i hm with hin | ⟨-, h2, h3⟩
    · exact absurd hin (List.not_mem_nil _)
    · exact ⟨by simpa using h2, by simpa using h3⟩
  · intro k l hk hd
    have := aux_lookup_defined p lines 0 [] is m k l haux hk hd
    simpa using this

/-- Witness for C7: the two-line program `x:` / blank line builds into two
`Noop`s with the label `x` at index 0. -/
theorem c7_one_instruction_per_line_witness :
    ([Instruction.Noop, Instruction.Noop] : List Instruction).length =
      (["x:", ""] : List String).length
    ∧ (0 < (["x:", ""] : List String).length
        ∧ definedLabel ((["x:", ""] : List String).getD 0 "") = some "x")
    ∧ lookupA [("x", 0)] "x" = some 0 := by
  have h := c7_one_instruction_per_line pAlwaysNoop ["x:", ""]
    [Instruction.Noop, Instruction.Noop] [("x", 0)] rfl
  exact ⟨h.1, h.2.1 "x" 0 (by simp), h.2.2 0 "x" (by decide) rfl⟩

theorem dup_error_aux (p : List String → Except Unit Instruction)
    (lines : List String) (i j : Nat) (l : String)
    (is : List Instruction) (m : List (String × Nat))
    (hij : i < j) (hj : j < lines.length)
    (hdi : definedLabel (lines.getD i "") = some l)
    (hdj : definedLabel (lines.getD j "") = some l)
    (hpre : buildInstrAux p (lines.take j) 0 [] = .ok (is, m)) :
    buildInstructions p lines =
      .error (if l = "main" ∨ l = "MAIN" then .MainLabelDefinedMultipleTimes
        else .LabelDefinedMultipleTimes l) := by
  have htlen : (lines.take j).length = j := by
    simp [List.length_take]
    omega
  have hti : (lines.take j).getD i "" = lines.getD i "" := by
    simp [List.getD_eq_getElem?_getD, List.getElem?_take_of_lt hij]
  have hmem : lookupA m l = some i := by
    have := aux_lookup_defined p (lines.take j) 0 [] is m i l hpre
      (by rw [htlen]; exact hij) (by rw [hti]; exact hdi)
    simpa using this
  have hsome : (lookupA m l).isSome = true := by rw [hmem]; rfl
  have hsplit : lines = lines.take j ++ (lines.getD j "" :: lines.drop (j + 1)) := by
    conv_lhs => rw [← List.take_append_drop j lines]
    congr 1
    rw [List.drop_eq_getElem_cons hj]
    congr 1
    simp [List.getD_eq_getElem?_getD, List.getElem?_eq_getElem hj]
  have hdup := lineStep_dup p (lines.getD j "") j m l hdj hsome
  have haux : buildInstrAux p lines 0 [] =
      .error (if l = "main" ∨ l = "MAIN" then .MainLabelDefinedMultipleTimes
        else .LabelDefinedMultipleTimes l) := by
    conv_lhs => rw [hsplit]
    rw [aux_append]
    simp only [hpre, htlen, Nat.zero_add]
    simp only [buildInstrAux]
    simp only [hdup]
  unfold buildInstructions
  rw [haux]

/-- C4: defining a label other than `main`/`MAIN` on two different lines
makes `build_instructions` fail with `LabelDefinedMultipleTimes` naming that
label (provided the loop reaches the second definition, i.e. the lines before
it process without error); defining `main` (or `MAIN`) twice with the same
spelling, or defining both `main` and `MAIN`, fails with
`MainLabelDefinedMultipleTimes`. -/
theorem c4_duplicate_labels (p : List String → Except Unit Instruction) :
    (∀ (lines : List String) (i j : Nat) (l : String)
      (is : List Instruction) (m : List (String × Nat)),
      i < j → j < lines.length →
      definedLabel (lines.getD i "") = some l →
      definedLabel (lines.getD j "") = some l →
      l ≠ "main" → l ≠ "MAIN" →
      buildInstrAux p (lines.take j) 0 [] = .ok (is, m) →
      buildInstructions p lines = .error (.LabelDefinedMultipleTimes l))
    ∧ (∀ (lines : List String) (i j : Nat) (l : String)
      (is : List Instruction) (m : List (String × Nat)),
      i < j → j < lines.length →
      definedLabel (lines.getD i "") = some l →
      definedLabel (lines.getD j "") = some l →
      (l = "main" ∨ l = "MAIN") →
      buildInstrAux p (lines.take j) 0 [] = .ok (is, m) →
      buildInstructions p lines = .error .MainLabelDefinedMultipleTimes)
    ∧ (∀ (lines : List String) (is : List Instruction) (m : List (String × Nat)),
      buildInstrAux p lines 0 [] = .ok (is, m) →
      (lookupA m "main").isSome = true → (lookupA m "MAIN").isSome = true →
      buildInstructions p lines = .error .MainLabelDefinedMultipleTimes) := by
  refine ⟨?_, ?_, ?_⟩
  · intro lines i j l is m hij hj hdi hdj hl1 hl2 hpre
    have := dup_error_aux p lines i j l is m hij hj hdi hdj hpre
    rw [if_neg (by simp [hl1, hl2])] at this
    exact this
  · intro lines i j l is m hij hj hdi hdj hl hpre
    have := dup_error_aux p lines i j l is m hij hj hdi hdj hpre
    rw [if_pos hl] at this
    exact this
  · intro lines is m haux hmain hMAIN
    unfold buildInstructions
    rw [haux]
    simp [hmain, hMAIN]

/-- Witness for C4: concrete two-line programs exercising all three failure
modes (duplicate ordinary label, duplicate `main`, `main` plus `MAIN`). -/
theorem c4_duplicate_labels_witness :
    buildInstructions pReject ["x:", "x:"] = .error (.LabelDefinedMultipleTimes "x")
    ∧ buildInstructions pReject ["main:", "main:"] = .error .MainLabelDefinedMultipleTimes
    ∧ buildInstructions pReject ["main:", "MAIN:"] = .error .MainLabelDefinedMultipleTimes := by
  have h := c4_duplicate_labels pReject
  refine ⟨?_, ?_, ?_⟩
  · exact h.1 ["x:", "x:"] 0 1 "x" [.Noop] [("x", 0)] (by decide) (by decide)
      rfl rfl (by decide) (by decide) rfl
  · exact h.2.1 ["main:", "main:"] 0 1 "main" [.Noop] [("main", 0)] (by decide)
      (by decide) rfl rfl (Or.inl rfl) rfl
  · exact h.2.2 ["main:", "MAIN:"] [.Noop, .Noop] [("MAIN", 1), ("main", 0)] rfl rfl rfl
